import Mathlib

/-!
# Verification of the portfolio ledger core (`portefeuille.py`)

Shallow embedding of the repository's core: a portfolio holding a cash
ledger (`courant`, list of `(date, montant)`) and a trade ledger
(`courtage`, list of `(date, symbole, quantite, prix)`), with the
operations `deposer`, `solde`, `acheter`, `nombre_actions`, `vendre`,
`valeur_totale`, `valeur_des_titres`, `titres`, `projection`, and the
JSON persistence pair `ecrire_json` / `lire_json`.

Modelling conventions:
* Python `float` amounts and prices become `ℚ`; `int` quantities become `ℤ`.
* `datetime.date` becomes a `(year, month, day)` record; Python's total
  order on dates is the lexicographic order on the fields, embedded here
  through the injective-on-valid-dates key `year*10000 + month*100 + day`.
* `dt.date.today()` is passed explicitly as a `today` parameter.
* The price oracle `Bourse.prix` (a network call in `bourse.py`) is a pure
  function parameter `prix : String → Date → ℚ`.  Its own future-date
  check is unreachable from `acheter`/`vendre`, which validate the date
  before querying it.
* Python raises are modelled with `Except Err`; for the mutating
  operations the result type is `Except Err Unit × Portefeuille`, the
  second component being the ledger state observable after the call
  (exceptions in the source are raised before any list append, which the
  translation reflects line by line).
* The `ecrire_json()` persistence call at the end of each mutating
  operation is a file-system effect and does not change the in-memory
  ledgers; it is modelled separately for the round-trip property.
-/

/-- A calendar date, as Python's `datetime.date` triple of fields. -/
structure Date where
  year : ℕ
  month : ℕ
  day : ℕ
deriving DecidableEq, Repr

/-- Order key for dates: on valid dates (`month ≤ 12`, `day ≤ 31`) the
order it induces is exactly Python's lexicographic date order. -/
def Date.key (d : Date) : ℕ :=
  d.year * 10000 + d.month * 100 + d.day

/-- Validity of a date triple as accepted by `datetime.date`
(the per-month day bound is abstracted to `day ≤ 31`). -/
def Date.Valid (d : Date) : Prop :=
  1 ≤ d.year ∧ d.year ≤ 9999 ∧ 1 ≤ d.month ∧ d.month ≤ 12 ∧ 1 ≤ d.day ∧ d.day ≤ 31

instance (d : Date) : Decidable d.Valid := by
  unfold Date.Valid; infer_instance

/-- The exceptions of `exceptions.py`, plus Python's built-in `KeyError`
(which `dict.pop` raises on a missing key). -/
inductive Err where
  | errDate
  | liquiditeInsuffisante
  | erreurQuantite
  | keyError
deriving DecidableEq, Repr

/-- A cash-ledger entry `(date, montant)` of `self.courant`. -/
structure CashEntry where
  date : Date
  montant : ℚ
deriving DecidableEq, Repr

/-- A trade-ledger entry `(date, symbole, quantite, prix)` of `self.courtage`. -/
structure TradeEntry where
  date : Date
  symbole : String
  quantite : ℤ
  prix : ℚ
deriving DecidableEq, Repr

/-- The in-memory state of `Portefeuille`: the two ledgers. -/
structure Portefeuille where
  courant : List CashEntry
  courtage : List TradeEntry
deriving DecidableEq, Repr

/-- The loop of `Portefeuille.solde`: `solde = 0.0`, then
`solde += t_montant` for each `(t_date, t_montant)` with `t_date <= date`. -/
def soldeVal (p : Portefeuille) (date : Date) : ℚ :=
  p.courant.foldl (fun acc e => if e.date.key ≤ date.key then acc + e.montant else acc) 0

/-- `Portefeuille.solde(date)`: future-date check, then the summation loop. -/
def solde (p : Portefeuille) (today date : Date) : Except Err ℚ :=
  if today.key < date.key then .error .errDate
  else .ok (soldeVal p date)

/-- `Portefeuille.deposer(montant, date)`: future-date check, then
`self.courant.append((date, montant))`. -/
def deposer (p : Portefeuille) (montant : ℚ) (today date : Date) :
    Except Err Unit × Portefeuille :=
  if today.key < date.key then (.error .errDate, p)
  else (.ok (), { p with courant := p.courant ++ [⟨date, montant⟩] })

/-- `Portefeuille.acheter(symbole, quantite, date)`: future-date check,
`prix = self.bourse.prix(symbole, date)`, `valeur_totale = prix * quantite`,
liquidity check against `self.solde(date)` (whose own date check passes
here), then the two appends. -/
def acheter (p : Portefeuille) (prix : String → Date → ℚ) (symbole : String)
    (quantite : ℤ) (today date : Date) : Except Err Unit × Portefeuille :=
  if today.key < date.key then (.error .errDate, p)
  else
    let px := prix symbole date
    let valeur_totale := px * (quantite : ℚ)
    if soldeVal p date < valeur_totale then (.error .liquiditeInsuffisante, p)
    else (.ok (), { courant := p.courant ++ [⟨date, -valeur_totale⟩],
                    courtage := p.courtage ++ [⟨date, symbole, quantite, px⟩] })

/-- `Portefeuille.nombre_actions(symbole, date)`: `total = 0`, then
`total += t_quantite` over trade entries with `t_date <= date` and matching
symbol.  The source performs no future-date check here. -/
def nombre_actions (p : Portefeuille) (symbole : String) (date : Date) : ℤ :=
  p.courtage.foldl
    (fun acc e => if e.date.key ≤ date.key ∧ e.symbole = symbole then acc + e.quantite else acc) 0

/-- `Portefeuille.vendre(symbole, quantite, date)`: future-date check,
quantity check against `nombre_actions`, then price query and the two
appends (trade entry with `-quantite`, cash entry with `+valeur_totale`). -/
def vendre (p : Portefeuille) (prix : String → Date → ℚ) (symbole : String)
    (quantite : ℤ) (today date : Date) : Except Err Unit × Portefeuille :=
  if today.key < date.key then (.error .errDate, p)
  else if nombre_actions p symbole date < quantite then (.error .erreurQuantite, p)
  else
    let px := prix symbole date
    let valeur_totale := px * (quantite : ℚ)
    (.ok (), { courant := p.courant ++ [⟨date, valeur_totale⟩],
               courtage := p.courtage ++ [⟨date, symbole, -quantite, px⟩] })

/-- `Portefeuille.valeur_totale(date)`: future-date check, the same
summation loop as `solde`, then `return total + self.solde(date)` (the
inner call's date check passes here). -/
def valeur_totale (p : Portefeuille) (today date : Date) : Except Err ℚ :=
  if today.key < date.key then .error .errDate
  else
    let total :=
      p.courant.foldl (fun acc e => if e.date.key ≤ date.key then acc + e.montant else acc) 0
    .ok (total + soldeVal p date)

/-- `Portefeuille.valeur_des_titres(symboles, date)`: future-date check,
then `total += t_quantite * t_prix` over trade entries with
`t_date <= date` and `t_symbole in symboles`. -/
def valeur_des_titres (p : Portefeuille) (symboles : List String) (today date : Date) :
    Except Err ℚ :=
  if today.key < date.key then .error .errDate
  else .ok (p.courtage.foldl
    (fun acc e =>
      if e.date.key ≤ date.key ∧ e.symbole ∈ symboles then acc + (e.quantite : ℚ) * e.prix
      else acc) 0)

/-- Python `dict.get(k, dflt)` on an insertion-ordered association list
with unique keys (the representation of a Python `dict`). -/
def dget (m : List (String × ℤ)) (k : String) (dflt : ℤ) : ℤ :=
  match m with
  | [] => dflt
  | (k2, v) :: rest => if k2 = k then v else dget rest k dflt

/-- Python `dict.update({k: v})`: reassign in place if the key is present,
otherwise append at the end (insertion order). -/
def dupdate (m : List (String × ℤ)) (k : String) (v : ℤ) : List (String × ℤ) :=
  match m with
  | [] => [(k, v)]
  | (k2, v2) :: rest => if k2 = k then (k2, v) :: rest else (k2, v2) :: dupdate rest k v

/-- Python `dict.pop(k)`: remove the key if present, `KeyError` (here
`none`) otherwise. -/
def dpop (m : List (String × ℤ)) (k : String) : Option (List (String × ℤ)) :=
  match m with
  | [] => none
  | (k2, v2) :: rest =>
    if k2 = k then some rest else (dpop rest k).map (fun r => (k2, v2) :: r)

/-- The loop of `Portefeuille.titres`: for each trade entry with
`t_date <= date` (the source's additional guard `t_symbole != 0` compares
a `str` with the `int` `0` and is always true in Python, so it is
vacuous), accumulate `nouvelle_quantite = t_quantite + titres.get(t_symbole, 0)`;
`pop` the symbol when the running total is zero — an unhandled `KeyError`
when it is absent — and reassign it otherwise. -/
def titresLoop (date : Date) : List TradeEntry → List (String × ℤ) →
    Except Err (List (String × ℤ))
  | [], acc => .ok acc
  | e :: rest, acc =>
    if e.date.key ≤ date.key then
      let n := e.quantite + dget acc e.symbole 0
      if n = 0 then
        match dpop acc e.symbole with
        | none => .error .keyError
        | some acc2 => titresLoop date rest acc2
      else titresLoop date rest (dupdate acc e.symbole n)
    else titresLoop date rest acc

/-- `Portefeuille.titres(date)`: future-date check, then the dict-building
replay of the trade ledger. -/
def titres (p : Portefeuille) (today date : Date) : Except Err (List (String × ℤ)) :=
  if today.key < date.key then .error .errDate
  else titresLoop date p.courtage []

/-- `Portefeuille.projection(vo, tau, annee, m)`:
`interests = vo*(1 + (tau/100))**annee`, `capital = (m/365)*interests*(tau/100)`,
returns `interests + capital`. -/
def projection (vo tau : ℚ) (annee : ℕ) (m : ℚ) : ℚ :=
  let interests := vo * (1 + tau / 100) ^ annee
  let capital := (m / 365) * interests * (tau / 100)
  interests + capital

/-- The ASCII digit character for `n % 10`-style values. -/
def digitChar (n : ℕ) : Char := Char.ofNat (48 + n)

/-- Parse one ASCII digit character, as `strptime` does. -/
def charDigit (c : Char) : Option ℕ :=
  if 48 ≤ c.toNat ∧ c.toNat ≤ 57 then some (c.toNat - 48) else none

/-- `%Y` rendering of `strftime`: the year, four digits. -/
def pad4 (n : ℕ) : List Char :=
  [digitChar (n / 1000 % 10), digitChar (n / 100 % 10), digitChar (n / 10 % 10),
   digitChar (n % 10)]

/-- `%m` / `%d` rendering of `strftime`: two digits. -/
def pad2 (n : ℕ) : List Char :=
  [digitChar (n / 10 % 10), digitChar (n % 10)]

/-- `d.strftime("%Y-%m-%d")` as a character list. -/
def encodeDateChars (d : Date) : List Char :=
  pad4 d.year ++ '-' :: (pad2 d.month ++ '-' :: pad2 d.day)

/-- `d.strftime("%Y-%m-%d")`. -/
def encodeDate (d : Date) : String := ⟨encodeDateChars d⟩

/-- `datetime.strptime(s, "%Y-%m-%d").date()` on the ten-character shape
`strftime` produces: four year digits, dash, two month digits, dash, two
day digits, with the field validation `strptime` performs (the per-month
day bound abstracted to 31, matching `Date.Valid`). -/
def decodeDateChars (l : List Char) : Option Date :=
  match l with
  | [y1, y2, y3, y4, h1, m1, m2, h2, d1, d2] =>
    if h1 = '-' ∧ h2 = '-' then
      match charDigit y1, charDigit y2, charDigit y3, charDigit y4 with
      | some a, some b, some c, some e =>
        match charDigit m1, charDigit m2, charDigit d1, charDigit d2 with
        | some f, some g, some i, some j =>
          let dte : Date := ⟨((a * 10 + b) * 10 + c) * 10 + e, f * 10 + g, i * 10 + j⟩
          if dte.Valid then some dte else none
        | _, _, _, _ => none
      | _, _, _, _ => none
    else none
  | _ => none

/-- `datetime.strptime(s, "%Y-%m-%d").date()`. -/
def decodeDate (s : String) : Option Date := decodeDateChars s.data

/-- The parsed content of the persisted JSON store: the two serialized
ledgers under the keys `"courant"` and `"courtage"`, dates as strings
(the JSON text transport of numbers, strings and arrays is taken as
faithful). -/
structure FolioJson where
  courant : List (String × ℚ)
  courtage : List (String × String × ℤ × ℚ)
deriving DecidableEq, Repr

/-- `Portefeuille.ecrire_json`: serialize both ledgers, dates rendered
with `strftime("%Y-%m-%d")`. -/
def ecrire_json (p : Portefeuille) : FolioJson where
  courant := p.courant.map (fun e => (encodeDate e.date, e.montant))
  courtage := p.courtage.map (fun e => (encodeDate e.date, e.symbole, e.quantite, e.prix))

/-- The cash-ledger list comprehension of `lire_json`:
`[(strptime(d_str, "%Y-%m-%d").date(), montant) for d_str, montant in data["courant"]]`
(a parse failure is a raised `ValueError`, modelled by `none`). -/
def parseCourant (l : List (String × ℚ)) : Option (List CashEntry) :=
  match l with
  | [] => some []
  | e :: rest => do
    let d ← decodeDate e.1
    let r ← parseCourant rest
    pure (⟨d, e.2⟩ :: r)

/-- The trade-ledger list comprehension of `lire_json`. -/
def parseCourtage (l : List (String × String × ℤ × ℚ)) : Option (List TradeEntry) :=
  match l with
  | [] => some []
  | e :: rest => do
    let d ← decodeDate e.1
    let r ← parseCourtage rest
    pure (⟨d, e.2.1, e.2.2.1, e.2.2.2⟩ :: r)

/-- `Portefeuille.lire_json` applied to an existing store: rebuild both
ledgers, dates parsed with `strptime(d_str, "%Y-%m-%d").date()`. -/
def lire_json (j : FolioJson) : Option Portefeuille := do
  let courant ← parseCourant j.courant
  let courtage ← parseCourtage j.courtage
  pure ⟨courant, courtage⟩

/-- The specification's Trade-Ledger query, written from its words:
`netQuantity(symbol, date)` "sums signedQuantity over entries with
matching symbol and `entry.date ≤ date`". -/
def netQuantity (p : Portefeuille) (symbole : String) (date : Date) : ℤ :=
  ((p.courtage.filter (fun e => e.date.key ≤ date.key ∧ e.symbole = symbole)).map
    TradeEntry.quantite).sum

/-- Recursive form of the cash-summation loop shared by `solde` and
`valeur_totale`, used to reason about `soldeVal` by induction. -/
def cashSum (l : List CashEntry) (date : Date) : ℚ :=
  match l with
  | [] => 0
  | e :: rest => (if e.date.key ≤ date.key then e.montant else 0) + cashSum rest date

/-- Recursive form of the trade-summation loop of `nombre_actions`. -/
def tradeSum (l : List TradeEntry) (symbole : String) (date : Date) : ℤ :=
  match l with
  | [] => 0
  | e :: rest =>
    (if e.date.key ≤ date.key ∧ e.symbole = symbole then e.quantite else 0) +
      tradeSum rest symbole date

/-- First-match lookup on the association-list representation of a Python
`dict` (`some` exactly on present keys). -/
def dfind (m : List (String × ℤ)) (k : String) : Option ℤ :=
  match m with
  | [] => none
  | (k2, v) :: rest => if k2 = k then some v else dfind rest k

theorem foldl_cashSum (date : Date) : ∀ (l : List CashEntry) (acc : ℚ),
    l.foldl (fun a e => if e.date.key ≤ date.key then a + e.montant else a) acc =
      acc + cashSum l date
  | [], acc => by simp [cashSum]
  | e :: rest, acc => by
    simp only [List.foldl_cons, cashSum]
    split
    · rw [foldl_cashSum date rest]; ring
    · rw [foldl_cashSum date rest]; ring

theorem soldeVal_eq_cashSum (p : Portefeuille) (date : Date) :
    soldeVal p date = cashSum p.courant date := by
  unfold soldeVal
  rw [foldl_cashSum]
  ring

theorem foldl_tradeSum (symbole : String) (date : Date) : ∀ (l : List TradeEntry) (acc : ℤ),
    l.foldl (fun a e =>
        if e.date.key ≤ date.key ∧ e.symbole = symbole then a + e.quantite else a) acc =
      acc + tradeSum l symbole date
  | [], acc => by simp [tradeSum]
  | e :: rest, acc => by
    simp only [List.foldl_cons, tradeSum]
    split
    · rw [foldl_tradeSum symbole date rest]; ring
    · rw [foldl_tradeSum symbole date rest]; ring

theorem nombre_actions_eq_tradeSum (p : Portefeuille) (symbole : String) (date : Date) :
    nombre_actions p symbole date = tradeSum p.courtage symbole date := by
  unfold nombre_actions
  rw [foldl_tradeSum]
  ring

theorem netQuantity_eq_tradeSum (p : Portefeuille) (symbole : String) (date : Date) :
    netQuantity p symbole date = tradeSum p.courtage symbole date := by
  unfold netQuantity
  induction p.courtage with
  | nil => simp [tradeSum]
  | cons e rest ih =>
    by_cases h : e.date.key ≤ date.key ∧ e.symbole = symbole
    · rw [List.filter_cons_of_pos (by simpa using h)]
      simp only [List.map_cons, List.sum_cons, tradeSum, if_pos h, ih]
    · rw [List.filter_cons_of_neg (by simpa using h)]
      rw [tradeSum, if_neg h, ih, zero_add]

theorem dget_eq_dfind : ∀ (m : List (String × ℤ)) (k : String),
    dget m k 0 = (dfind m k).getD 0
  | [], k => rfl
  | (k2, v) :: rest, k => by
    by_cases h : k2 = k
    · show (if k2 = k then v else dget rest k 0) = ((if k2 = k then some v else dfind rest k).getD 0)
      rw [if_pos h, if_pos h]
      rfl
    · show (if k2 = k then v else dget rest k 0) = ((if k2 = k then some v else dfind rest k).getD 0)
      rw [if_neg h, if_neg h, dget_eq_dfind rest k]

theorem dfind_eq_none_of_not_mem : ∀ (m : List (String × ℤ)) (k : String),
    k ∉ m.map Prod.fst → dfind m k = none
  | [], _, _ => rfl
  | (k2, v) :: rest, k, h => by
    simp only [List.map_cons, List.mem_cons, not_or] at h
    show (if k2 = k then some v else dfind rest k) = none
    rw [if_neg (fun hc => h.1 hc.symm)]
    exact dfind_eq_none_of_not_mem rest k h.2

theorem dpop_eq_none_iff : ∀ (m : List (String × ℤ)) (k : String),
    dpop m k = none ↔ dfind m k = none
  | [], k => by simp [dpop, dfind]
  | (k2, v) :: rest, k => by
    by_cases h : k2 = k
    · simp [dpop, dfind, h]
    · simp [dpop, dfind, h, Option.map_eq_none, dpop_eq_none_iff rest k]

theorem dpop_sublist_keys : ∀ (m : List (String × ℤ)) (k : String) (m2 : List (String × ℤ)),
    dpop m k = some m2 → List.Sublist (m2.map Prod.fst) (m.map Prod.fst)
  | [], k, m2, h => by simp [dpop] at h
  | (k2, v) :: rest, k, m2, h => by
    by_cases hk : k2 = k
    · simp only [dpop, if_pos hk, Option.some_inj] at h
      subst h
      exact List.sublist_cons_self _ _
    · simp only [dpop, if_neg hk] at h
      rcases Option.map_eq_some'.mp h with ⟨r, hr, hm2⟩
      subst hm2
      exact List.Sublist.cons₂ _ (dpop_sublist_keys rest k r hr)

theorem dpop_spec : ∀ (m : List (String × ℤ)) (k : String) (m2 : List (String × ℤ)),
    (m.map Prod.fst).Nodup → dpop m k = some m2 →
    (∀ x, dfind m2 x = if x = k then none else dfind m x) ∧ (m2.map Prod.fst).Nodup
  | [], k, m2, _, h => by simp [dpop] at h
  | (k2, v) :: rest, k, m2, hnd, h => by
    simp only [List.map_cons, List.nodup_cons] at hnd
    by_cases hk : k2 = k
    · simp only [dpop, if_pos hk, Option.some_inj] at h
      subst h
      subst hk
      refine ⟨fun x => ?_, hnd.2⟩
      by_cases hx : x = k2
      · subst hx
        rw [if_pos rfl]
        exact dfind_eq_none_of_not_mem rest x hnd.1
      · rw [if_neg hx]
        show dfind rest x = (if k2 = x then some v else dfind rest x)
        rw [if_neg (fun hc => hx hc.symm)]
    · simp only [dpop, if_neg hk] at h
      rcases Option.map_eq_some'.mp h with ⟨r, hr, hm2⟩
      subst hm2
      obtain ⟨hfind, hnd2⟩ := dpop_spec rest k r hnd.2 hr
      refine ⟨fun x => ?_, ?_⟩
      · show (if k2 = x then some v else dfind r x) =
          if x = k then none else (if k2 = x then some v else dfind rest x)
        by_cases h2 : k2 = x
        · rw [if_pos h2, if_neg (fun hc : x = k => hk (h2.trans hc)), if_pos h2]
        · rw [if_neg h2, if_neg h2, hfind x]
      · simp only [List.map_cons, List.nodup_cons]
        exact ⟨fun hc => hnd.1 ((dpop_sublist_keys rest k r hr).subset hc), hnd2⟩

theorem dupdate_dfind : ∀ (m : List (String × ℤ)) (k : String) (v : ℤ) (x : String),
    dfind (dupdate m k v) x = if x = k then some v else dfind m x
  | [], k, v, x => by
    show (if k = x then some v else dfind [] x) = if x = k then some v else dfind [] x
    by_cases hx : x = k
    · rw [if_pos hx.symm, if_pos hx]
    · rw [if_neg (fun hc => hx hc.symm), if_neg hx]
  | (k2, v2) :: rest, k, v, x => by
    by_cases hk : k2 = k
    · show dfind (if k2 = k then (k2, v) :: rest else (k2, v2) :: dupdate rest k v) x =
        if x = k then some v else (if k2 = x then some v2 else dfind rest x)
      rw [if_pos hk]
      show (if k2 = x then some v else dfind rest x) =
        if x = k then some v else (if k2 = x then some v2 else dfind rest x)
      subst hk
      by_cases hx : x = k2
      · rw [if_pos hx.symm, if_pos hx]
      · rw [if_neg (fun hc => hx hc.symm), if_neg hx, if_neg (fun hc => hx hc.symm)]
    · show dfind (if k2 = k then (k2, v) :: rest else (k2, v2) :: dupdate rest k v) x =
        if x = k then some v else (if k2 = x then some v2 else dfind rest x)
      rw [if_neg hk]
      show (if k2 = x then some v2 else dfind (dupdate rest k v) x) =
        if x = k then some v else (if k2 = x then some v2 else dfind rest x)
      by_cases h2 : k2 = x
      · rw [if_pos h2, if_neg (fun hc : x = k => hk (h2.trans hc)), if_pos h2]
      · rw [if_neg h2, if_neg h2, dupdate_dfind rest k v x]

theorem mem_keys_dupdate : ∀ (m : List (String × ℤ)) (k : String) (v : ℤ) (x : String),
    x ∈ (dupdate m k v).map Prod.fst ↔ x ∈ m.map Prod.fst ∨ x = k
  | [], k, v, x => by
    show x ∈ [(k, v)].map Prod.fst ↔ x ∈ ([] : List (String × ℤ)).map Prod.fst ∨ x = k
    simp [eq_comm]
  | (k2, v2) :: rest, k, v, x => by
    by_cases hk : k2 = k
    · show x ∈ (if k2 = k then (k2, v) :: rest else (k2, v2) :: dupdate rest k v).map Prod.fst ↔ _
      rw [if_pos hk]
      subst hk
      simp only [List.map_cons, List.mem_cons]
      constructor
      · rintro (h | h)
        · exact Or.inl (Or.inl h)
        · exact Or.inl (Or.inr h)
      · rintro ((h | h) | h)
        · exact Or.inl h
        · exact Or.inr h
        · exact Or.inl (h.trans rfl)
    · show x ∈ (if k2 = k then (k2, v) :: rest else (k2, v2) :: dupdate rest k v).map Prod.fst ↔ _
      rw [if_neg hk]
      simp only [List.map_cons, List.mem_cons, mem_keys_dupdate rest k v x]
      tauto

theorem nodup_dupdate : ∀ (m : List (String × ℤ)) (k : String) (v : ℤ),
    (m.map Prod.fst).Nodup → ((dupdate m k v).map Prod.fst).Nodup
  | [], k, v, _ => by
    show ([(k, v)].map Prod.fst).Nodup
    simp
  | (k2, v2) :: rest, k, v, hnd => by
    simp only [List.map_cons, List.nodup_cons] at hnd
    by_cases hk : k2 = k
    · show ((if k2 = k then (k2, v) :: rest else (k2, v2) :: dupdate rest k v).map Prod.fst).Nodup
      rw [if_pos hk]
      simp only [List.map_cons, List.nodup_cons]
      exact hnd
    · show ((if k2 = k then (k2, v) :: rest else (k2, v2) :: dupdate rest k v).map Prod.fst).Nodup
      rw [if_neg hk]
      simp only [List.map_cons, List.nodup_cons]
      refine ⟨fun hc => ?_, nodup_dupdate rest k v hnd.2⟩
      rcases (mem_keys_dupdate rest k v k2).mp hc with h | h
      · exact hnd.1 h
      · exact hk h

theorem titresLoop_cons (date : Date) (e : TradeEntry) (rest : List TradeEntry)
    (acc : List (String × ℤ)) :
    titresLoop date (e :: rest) acc =
      if e.date.key ≤ date.key then
        (if e.quantite + dget acc e.symbole 0 = 0 then
          match dpop acc e.symbole with
          | none => .error .keyError
          | some acc2 => titresLoop date rest acc2
        else titresLoop date rest (dupdate acc e.symbole (e.quantite + dget acc e.symbole 0)))
      else titresLoop date rest acc := rfl

/-- Invariant of the `titres` replay loop: provided every processed entry
in scope of the date filter has a nonzero signed quantity, the loop never
hits the missing-key `pop`, and the final dictionary realizes, for every
symbol, the masked running total (absent exactly on zero). -/
theorem titresLoop_spec (date : Date) :
    ∀ (entries : List TradeEntry) (acc : List (String × ℤ)) (f : String → ℤ),
    (∀ e ∈ entries, e.date.key ≤ date.key → e.quantite ≠ 0) →
    (∀ k, dfind acc k = if f k = 0 then none else some (f k)) →
    (acc.map Prod.fst).Nodup →
    ∃ m, titresLoop date entries acc = .ok m ∧
      (∀ k, dfind m k =
        if f k + tradeSum entries k date = 0 then none
        else some (f k + tradeSum entries k date)) ∧
      (m.map Prod.fst).Nodup
  | [], acc, f, _, hinv, hnd => ⟨acc, rfl, by simpa [tradeSum] using hinv, hnd⟩
  | e :: rest, acc, f, hq, hinv, hnd => by
    have hq2 : ∀ e2 ∈ rest, e2.date.key ≤ date.key → e2.quantite ≠ 0 :=
      fun e2 h2 => hq e2 (List.mem_cons_of_mem _ h2)
    by_cases hdate : e.date.key ≤ date.key
    · have hget : dget acc e.symbole 0 = f e.symbole := by
        rw [dget_eq_dfind, hinv e.symbole]
        by_cases h0 : f e.symbole = 0
        · rw [if_pos h0, h0]; rfl
        · rw [if_neg h0]; rfl
      rw [titresLoop_cons, if_pos hdate, hget]
      by_cases hn : e.quantite + f e.symbole = 0
      · rw [if_pos hn]
        have hqe : e.quantite ≠ 0 := hq e (List.mem_cons_self _ _) hdate
        have hf0 : f e.symbole ≠ 0 := fun hc => hqe (by omega)
        have hsome : dfind acc e.symbole = some (f e.symbole) := by
          rw [hinv e.symbole, if_neg hf0]
        have hpop : dpop acc e.symbole ≠ none := by
          rw [Ne, dpop_eq_none_iff, hsome]
          simp
        obtain ⟨acc2, hacc2⟩ := Option.ne_none_iff_exists'.mp hpop
        rw [hacc2]
        obtain ⟨hfind2, hnd2⟩ := dpop_spec acc e.symbole acc2 hnd hacc2
        have hinv2 : ∀ k, dfind acc2 k =
            if (if k = e.symbole then 0 else f k) = 0 then none
            else some (if k = e.symbole then 0 else f k) := by
          intro k
          by_cases hk : k = e.symbole
          · rw [hfind2 k, if_pos hk, if_pos hk, if_pos rfl]
          · rw [hfind2 k, if_neg hk, if_neg hk]
            exact hinv k
        obtain ⟨m, hok, hminv, hmnd⟩ :=
          titresLoop_spec date rest acc2 (fun k => if k = e.symbole then 0 else f k)
            hq2 hinv2 hnd2
        refine ⟨m, hok, fun k => ?_, hmnd⟩
        have hv : (if k = e.symbole then 0 else f k) + tradeSum rest k date =
            f k + tradeSum (e :: rest) k date := by
          by_cases hk : k = e.symbole
          · subst hk
            rw [if_pos rfl, tradeSum, if_pos ⟨hdate, rfl⟩]
            omega
          · rw [if_neg hk, tradeSum, if_neg (fun hc => hk hc.2.symm), zero_add]
        rw [hminv k, hv]
      · rw [if_neg hn]
        have hinv3 : ∀ k, dfind (dupdate acc e.symbole (e.quantite + f e.symbole)) k =
            if (if k = e.symbole then e.quantite + f e.symbole else f k) = 0 then none
            else some (if k = e.symbole then e.quantite + f e.symbole else f k) := by
          intro k
          rw [dupdate_dfind]
          by_cases hk : k = e.symbole
          · rw [if_pos hk, if_pos hk, if_neg hn]
          · rw [if_neg hk, if_neg hk]
            exact hinv k
        obtain ⟨m, hok, hminv, hmnd⟩ :=
          titresLoop_spec date rest (dupdate acc e.symbole (e.quantite + f e.symbole))
            (fun k => if k = e.symbole then e.quantite + f e.symbole else f k)
            hq2 hinv3 (nodup_dupdate acc e.symbole _ hnd)
        refine ⟨m, hok, fun k => ?_, hmnd⟩
        have hv : (if k = e.symbole then e.quantite + f e.symbole else f k) +
            tradeSum rest k date = f k + tradeSum (e :: rest) k date := by
          by_cases hk : k = e.symbole
          · subst hk
            rw [if_pos rfl, tradeSum, if_pos ⟨hdate, rfl⟩]
            omega
          · rw [if_neg hk, tradeSum, if_neg (fun hc => hk hc.2.symm), zero_add]
        rw [hminv k, hv]
    · rw [titresLoop_cons, if_neg hdate]
      obtain ⟨m, hok, hminv, hmnd⟩ := titresLoop_spec date rest acc f hq2 hinv hnd
      refine ⟨m, hok, fun k => ?_, hmnd⟩
      have hv : tradeSum rest k date = tradeSum (e :: rest) k date := by
        rw [tradeSum, if_neg (fun hc => hdate hc.1), zero_add]
      rw [hminv k, hv]

theorem cashSum_mono : ∀ (l : List CashEntry) (d1 d2 : Date),
    (∀ e ∈ l, 0 ≤ e.montant) → d1.key ≤ d2.key → cashSum l d1 ≤ cashSum l d2
  | [], _, _, _, _ => le_refl 0
  | e :: rest, d1, d2, hpos, h12 => by
    have hrest := cashSum_mono rest d1 d2
      (fun e2 h2 => hpos e2 (List.mem_cons_of_mem _ h2)) h12
    rw [cashSum, cashSum]
    by_cases h1 : e.date.key ≤ d1.key
    · rw [if_pos h1, if_pos (le_trans h1 h12)]
      exact add_le_add (le_refl _) hrest
    · rw [if_neg h1]
      by_cases h2 : e.date.key ≤ d2.key
      · rw [if_pos h2]
        have := hpos e (List.mem_cons_self _ _)
        linarith
      · rw [if_neg h2]
        linarith

theorem charDigit_digitChar (k : ℕ) (hk : k < 10) : charDigit (digitChar k) = some k := by
  interval_cases k <;> rfl

theorem charDigit_digitChar_mod (n : ℕ) : charDigit (digitChar (n % 10)) = some (n % 10) :=
  charDigit_digitChar _ (Nat.mod_lt _ (by norm_num))

theorem decodeDateChars_encodeDateChars (d : Date) (hv : d.Valid) :
    decodeDateChars (encodeDateChars d) = some d := by
  obtain ⟨y, mo, da⟩ := d
  obtain ⟨h1, h2, h3, h4, h5, h6⟩ := hv
  have hb1 : 1 ≤ y := h1
  have hb2 : y ≤ 9999 := h2
  have hb3 : 1 ≤ mo := h3
  have hb4 : mo ≤ 12 := h4
  have hb5 : 1 ≤ da := h5
  have hb6 : da ≤ 31 := h6
  show decodeDateChars [digitChar (y / 1000 % 10), digitChar (y / 100 % 10),
    digitChar (y / 10 % 10), digitChar (y % 10), '-', digitChar (mo / 10 % 10),
    digitChar (mo % 10), '-', digitChar (da / 10 % 10), digitChar (da % 10)] =
    some ⟨y, mo, da⟩
  have hy : ((y / 1000 % 10 * 10 + y / 100 % 10) * 10 + y / 10 % 10) * 10 + y % 10 = y := by
    omega
  have hmo : mo / 10 % 10 * 10 + mo % 10 = mo := by omega
  have hda : da / 10 % 10 * 10 + da % 10 = da := by omega
  have hvd : Date.Valid ⟨y, mo, da⟩ := ⟨h1, h2, h3, h4, h5, h6⟩
  simp only [decodeDateChars, charDigit_digitChar_mod, hy, hmo, hda]
  rw [if_pos (⟨trivial, trivial⟩ : True ∧ True), if_pos hvd]

theorem decodeDate_encodeDate (d : Date) (hv : d.Valid) :
    decodeDate (encodeDate d) = some d :=
  decodeDateChars_encodeDateChars d hv

theorem parseCourant_roundtrip : ∀ (l : List CashEntry), (∀ e ∈ l, e.date.Valid) →
    parseCourant (l.map (fun e => (encodeDate e.date, e.montant))) = some l
  | [], _ => rfl
  | ⟨d0, m0⟩ :: rest, hv => by
    have hd := decodeDate_encodeDate d0 (hv ⟨d0, m0⟩ (List.mem_cons_self _ _))
    have ih := parseCourant_roundtrip rest (fun e2 h2 => hv e2 (List.mem_cons_of_mem _ h2))
    simp [parseCourant, hd, ih]

theorem parseCourtage_roundtrip : ∀ (l : List TradeEntry), (∀ e ∈ l, e.date.Valid) →
    parseCourtage (l.map (fun e => (encodeDate e.date, e.symbole, e.quantite, e.prix))) =
      some l
  | [], _ => rfl
  | ⟨d0, s0, q0, x0⟩ :: rest, hv => by
    have hd := decodeDate_encodeDate d0 (hv ⟨d0, s0, q0, x0⟩ (List.mem_cons_self _ _))
    have ih := parseCourtage_roundtrip rest (fun e2 h2 => hv e2 (List.mem_cons_of_mem _ h2))
    simp [parseCourtage, hd, ih]

/-- C1: for a positive quantity and a date not after today, `acheter`
raises `LiquiditeInsuffisante` exactly when `solde(date)` is less than
`prix × quantite`; on the raise both ledgers are left untouched, and on
success it appends exactly one cash entry `(date, -prix × quantite)` and
one trade entry `(date, symbole, quantite, prix)` and changes nothing
else. -/
theorem acheter_liquidite_spec (p : Portefeuille) (prix : String → Date → ℚ)
    (symbole : String) (quantite : ℤ) (today date : Date)
    (hq : 0 < quantite) (hd : date.key ≤ today.key) :
    (soldeVal p date < prix symbole date * (quantite : ℚ) →
      acheter p prix symbole quantite today date = (.error .liquiditeInsuffisante, p)) ∧
    (¬ soldeVal p date < prix symbole date * (quantite : ℚ) →
      acheter p prix symbole quantite today date =
        (.ok (), ⟨p.courant ++ [⟨date, -(prix symbole date * (quantite : ℚ))⟩],
                  p.courtage ++ [⟨date, symbole, quantite, prix symbole date⟩]⟩)) := by
  have hnd : ¬ today.key < date.key := not_lt.mpr hd
  simp only [acheter]
  rw [if_neg hnd]
  constructor
  · intro hlt
    rw [if_pos hlt]
  · intro hge
    rw [if_neg hge]

theorem acheter_liquidite_spec_witness :
    acheter ⟨[], []⟩ (fun _ _ => 1) "XYZ" 10 ⟨2024, 5, 2⟩ ⟨2024, 5, 1⟩ =
      (.error .liquiditeInsuffisante, ⟨[], []⟩) :=
  (acheter_liquidite_spec ⟨[], []⟩ (fun _ _ => 1) "XYZ" 10 ⟨2024, 5, 2⟩ ⟨2024, 5, 1⟩
    (by norm_num) (by norm_num [Date.key])).1 (by norm_num [soldeVal])

/-- C2: for a positive quantity and a date not after today, `vendre`
raises `ErreurQuantite` exactly when the net signed quantity held
(`nombre_actions`) is less than the requested quantity; on the raise both
ledgers are left untouched, and on success it appends exactly one trade
entry `(date, symbole, -quantite, prix)` and one cash entry
`(date, quantite × prix)`. -/
theorem vendre_quantite_spec (p : Portefeuille) (prix : String → Date → ℚ)
    (symbole : String) (quantite : ℤ) (today date : Date)
    (hq : 0 < quantite) (hd : date.key ≤ today.key) :
    (nombre_actions p symbole date < quantite →
      vendre p prix symbole quantite today date = (.error .erreurQuantite, p)) ∧
    (¬ nombre_actions p symbole date < quantite →
      vendre p prix symbole quantite today date =
        (.ok (), ⟨p.courant ++ [⟨date, prix symbole date * (quantite : ℚ)⟩],
                  p.courtage ++ [⟨date, symbole, -quantite, prix symbole date⟩]⟩)) := by
  have hnd : ¬ today.key < date.key := not_lt.mpr hd
  simp only [vendre]
  rw [if_neg hnd]
  constructor
  · intro hlt
    rw [if_pos hlt]
  · intro hge
    rw [if_neg hge]

theorem vendre_quantite_spec_witness :
    vendre ⟨[], [⟨⟨2024, 4, 30⟩, "ABC", 5, 2⟩]⟩ (fun _ _ => 2) "ABC" 6
        ⟨2024, 5, 2⟩ ⟨2024, 5, 1⟩ =
      (.error .erreurQuantite, ⟨[], [⟨⟨2024, 4, 30⟩, "ABC", 5, 2⟩]⟩) :=
  (vendre_quantite_spec ⟨[], [⟨⟨2024, 4, 30⟩, "ABC", 5, 2⟩]⟩ (fun _ _ => 2) "ABC" 6
    ⟨2024, 5, 2⟩ ⟨2024, 5, 1⟩ (by norm_num) (by norm_num [Date.key])).1 (by decide)

/-- C4: for a date not after today, `valeur_totale` returns the balance
plus the sum of all cash-entry amounts dated at most `date` — the two
summation loops are identical, so the result is exactly twice
`solde(date)`. -/
theorem valeur_totale_double_solde (p : Portefeuille) (today date : Date)
    (hd : date.key ≤ today.key) :
    valeur_totale p today date = .ok (soldeVal p date + soldeVal p date) ∧
    solde p today date = .ok (soldeVal p date) ∧
    valeur_totale p today date = .ok (2 * soldeVal p date) := by
  have hnd : ¬ today.key < date.key := not_lt.mpr hd
  refine ⟨?_, ?_, ?_⟩
  · simp only [valeur_totale]
    rw [if_neg hnd]
    rfl
  · simp only [solde]
    rw [if_neg hnd]
  · simp only [valeur_totale]
    rw [if_neg hnd, two_mul]
    rfl

theorem valeur_totale_double_solde_witness :
    valeur_totale ⟨[⟨⟨2024, 5, 1⟩, 7⟩], []⟩ ⟨2024, 5, 2⟩ ⟨2024, 5, 1⟩ =
      .ok (2 * soldeVal ⟨[⟨⟨2024, 5, 1⟩, 7⟩], []⟩ ⟨2024, 5, 1⟩) :=
  (valeur_totale_double_solde ⟨[⟨⟨2024, 5, 1⟩, 7⟩], []⟩ ⟨2024, 5, 2⟩ ⟨2024, 5, 1⟩
    (by norm_num [Date.key])).2.2

/-- C5: `projection vo tau annee m` equals
`vo (1 + tau/100)^annee + (m/365) (vo (1 + tau/100)^annee) (tau/100)`;
in particular `projection 1000 5 1 0 = 1050` and the rate-zero projection
is the identity on `vo`. -/
theorem projection_formule (vo tau m : ℚ) (annee : ℕ) :
    projection vo tau annee m =
      vo * (1 + tau / 100) ^ annee +
        m / 365 * (vo * (1 + tau / 100) ^ annee) * (tau / 100) ∧
    projection 1000 5 1 0 = 1050 ∧
    projection vo 0 annee m = vo := by
  refine ⟨rfl, by norm_num [projection], ?_⟩
  simp [projection]

/-- C7: with a date strictly after today, each of `deposer`, `acheter`,
`vendre`, `solde`, `titres` and `valeur_des_titres` raises `ErreurDate`
and leaves both ledgers unchanged. -/
theorem operations_date_future (p : Portefeuille) (prix : String → Date → ℚ)
    (montant : ℚ) (symbole : String) (quantite : ℤ) (symboles : List String)
    (today date : Date) (hd : today.key < date.key) :
    deposer p montant today date = (.error .errDate, p) ∧
    acheter p prix symbole quantite today date = (.error .errDate, p) ∧
    vendre p prix symbole quantite today date = (.error .errDate, p) ∧
    solde p today date = .error .errDate ∧
    titres p today date = .error .errDate ∧
    valeur_des_titres p symboles today date = .error .errDate := by
  refine ⟨?_, ?_, ?_, ?_, ?_, ?_⟩
  · simp only [deposer]
    rw [if_pos hd]
  · simp only [acheter]
    rw [if_pos hd]
  · simp only [vendre]
    rw [if_pos hd]
  · simp only [solde]
    rw [if_pos hd]
  · simp only [titres]
    rw [if_pos hd]
  · simp only [valeur_des_titres]
    rw [if_pos hd]

theorem operations_date_future_witness :
    deposer ⟨[], []⟩ 5 ⟨2024, 5, 1⟩ ⟨2024, 5, 2⟩ = (.error .errDate, ⟨[], []⟩) :=
  (operations_date_future ⟨[], []⟩ (fun _ _ => 1) 5 "A" 1 [] ⟨2024, 5, 1⟩ ⟨2024, 5, 2⟩
    (by norm_num [Date.key])).1

/-- C3 counterexample: `titres` does not return a mapping for every trade
ledger — on a ledger holding a single zero-quantity entry the running
total reaches zero on a symbol that is absent from the dictionary, and
the per-entry `pop` aborts with an unhandled `KeyError`. -/
theorem titres_zero_qty_cex :
    titres ⟨[], [⟨⟨2024, 5, 1⟩, "ABC", 0, 1⟩]⟩ ⟨2024, 5, 1⟩ ⟨2024, 5, 1⟩ =
      .error .keyError := rfl

/-- C3 (amended): for a trade ledger in which every entry dated at most
`date` has nonzero signed quantity, and a date not after today, `titres`
returns a mapping containing a symbol exactly when its final net signed
quantity is nonzero, mapping it to that net quantity (the value
`nombre_actions` returns); in particular no symbol is mapped to 0, even
though the code removes symbols per-entry whenever the running total
reaches zero. -/
theorem titres_mapping_spec (p : Portefeuille) (today date : Date)
    (hd : date.key ≤ today.key)
    (hnz : ∀ e ∈ p.courtage, e.date.key ≤ date.key → e.quantite ≠ 0) :
    ∃ m, titres p today date = .ok m ∧
      (∀ s, dfind m s =
        if nombre_actions p s date = 0 then none
        else some (nombre_actions p s date)) ∧
      (∀ s q, dfind m s = some q → q ≠ 0) := by
  obtain ⟨m, hok, hinv, -⟩ := titresLoop_spec date p.courtage [] (fun _ => 0) hnz
    (fun k => by simp [dfind]) (by simp)
  have hchar : ∀ s, dfind m s =
      if nombre_actions p s date = 0 then none else some (nombre_actions p s date) := by
    intro s
    have h := hinv s
    rw [zero_add] at h
    rw [h, nombre_actions_eq_tradeSum]
  refine ⟨m, ?_, hchar, ?_⟩
  · simp only [titres]
    rw [if_neg (not_lt.mpr hd), hok]
  · intro s q hq
    rw [hchar s] at hq
    by_cases h0 : nombre_actions p s date = 0
    · rw [if_pos h0] at hq
      exact absurd hq (by simp)
    · rw [if_neg h0] at hq
      rw [← Option.some_inj.mp hq]
      exact h0

theorem titres_mapping_spec_witness :
    ∃ m, titres ⟨[], [⟨⟨2024, 5, 1⟩, "ABC", 2, 1⟩, ⟨⟨2024, 5, 1⟩, "ABC", -2, 1⟩,
        ⟨⟨2024, 5, 1⟩, "XYZ", 4, 3⟩]⟩ ⟨2024, 5, 2⟩ ⟨2024, 5, 1⟩ = .ok m ∧
      (∀ s, dfind m s =
        if nombre_actions ⟨[], [⟨⟨2024, 5, 1⟩, "ABC", 2, 1⟩, ⟨⟨2024, 5, 1⟩, "ABC", -2, 1⟩,
            ⟨⟨2024, 5, 1⟩, "XYZ", 4, 3⟩]⟩ s ⟨2024, 5, 1⟩ = 0 then none
        else some (nombre_actions ⟨[], [⟨⟨2024, 5, 1⟩, "ABC", 2, 1⟩,
            ⟨⟨2024, 5, 1⟩, "ABC", -2, 1⟩, ⟨⟨2024, 5, 1⟩, "XYZ", 4, 3⟩]⟩ s ⟨2024, 5, 1⟩)) ∧
      (∀ s q, dfind m s = some q → q ≠ 0) :=
  titres_mapping_spec _ ⟨2024, 5, 2⟩ ⟨2024, 5, 1⟩ (by norm_num [Date.key]) (by decide)

/-- C8 counterexample: `nombre_actions` takes a date parameter but
performs no future-date validation — called with a date strictly after
today it returns the net quantity instead of raising `ErreurDate`. -/
theorem nombre_actions_date_future_cex :
    Date.key ⟨2024, 5, 1⟩ < Date.key ⟨2024, 5, 2⟩ ∧
    nombre_actions ⟨[], [⟨⟨2024, 4, 30⟩, "ABC", 3, 1⟩]⟩ "ABC" ⟨2024, 5, 2⟩ = 3 := by
  refine ⟨by norm_num [Date.key], ?_⟩
  decide

/-- C8 (amended): every date-bearing core operation except
`nombre_actions` raises `ErreurDate` on a future date; `nombre_actions`
performs no date check and returns the net signed quantity of the symbol
over entries dated at most `date` even when `date` is strictly after
today. -/
theorem nombre_actions_sans_controle_date (p : Portefeuille) (symbole : String)
    (today date : Date) (hd : today.key < date.key) :
    nombre_actions p symbole date = netQuantity p symbole date := by
  rw [nombre_actions_eq_tradeSum, netQuantity_eq_tradeSum]

theorem nombre_actions_sans_controle_date_witness :
    nombre_actions ⟨[], [⟨⟨2024, 4, 30⟩, "ABC", 3, 1⟩]⟩ "ABC" ⟨2024, 5, 2⟩ =
      netQuantity ⟨[], [⟨⟨2024, 4, 30⟩, "ABC", 3, 1⟩]⟩ "ABC" ⟨2024, 5, 2⟩ :=
  nombre_actions_sans_controle_date _ "ABC" ⟨2024, 5, 1⟩ ⟨2024, 5, 2⟩
    (by norm_num [Date.key])

/-- C9: when every cash entry is nonnegative (deposits and sale proceeds
only), `solde` is monotone in the date: for dates `d1 ≤ d2`, both not
after today, `solde(d1) ≤ solde(d2)`. -/
theorem solde_monotone (p : Portefeuille) (today d1 d2 : Date)
    (hpos : ∀ e ∈ p.courant, 0 ≤ e.montant) (h12 : d1.key ≤ d2.key)
    (h2 : d2.key ≤ today.key) :
    ∃ s1 s2, solde p today d1 = .ok s1 ∧ solde p today d2 = .ok s2 ∧ s1 ≤ s2 := by
  refine ⟨soldeVal p d1, soldeVal p d2, ?_, ?_, ?_⟩
  · simp only [solde]
    rw [if_neg (not_lt.mpr (le_trans h12 h2))]
  · simp only [solde]
    rw [if_neg (not_lt.mpr h2)]
  · rw [soldeVal_eq_cashSum, soldeVal_eq_cashSum]
    exact cashSum_mono p.courant d1 d2 hpos h12

theorem solde_monotone_witness :
    ∃ s1 s2, solde ⟨[⟨⟨2024, 5, 1⟩, 3⟩], []⟩ ⟨2024, 5, 2⟩ ⟨2024, 4, 30⟩ = .ok s1 ∧
      solde ⟨[⟨⟨2024, 5, 1⟩, 3⟩], []⟩ ⟨2024, 5, 2⟩ ⟨2024, 5, 1⟩ = .ok s2 ∧ s1 ≤ s2 :=
  solde_monotone ⟨[⟨⟨2024, 5, 1⟩, 3⟩], []⟩ ⟨2024, 5, 2⟩ ⟨2024, 4, 30⟩ ⟨2024, 5, 1⟩
    (by decide) (by norm_num [Date.key]) (by norm_num [Date.key])

/-- C6: writing both ledgers with `ecrire_json` and reading them back
with `lire_json` restores ledgers element-wise equal to the originals —
same dates (through the `YYYY-MM-DD` encoding), symbols, quantities,
amounts and prices, in the same order. -/
theorem json_round_trip (p : Portefeuille)
    (hv1 : ∀ e ∈ p.courant, e.date.Valid) (hv2 : ∀ e ∈ p.courtage, e.date.Valid) :
    lire_json (ecrire_json p) = some p := by
  obtain ⟨courant, courtage⟩ := p
  simp only [lire_json, ecrire_json]
  rw [parseCourant_roundtrip courant hv1, parseCourtage_roundtrip courtage hv2]
  rfl

theorem json_round_trip_witness :
    lire_json (ecrire_json ⟨[⟨⟨2024, 5, 1⟩, 7⟩], [⟨⟨2023, 12, 31⟩, "ABC", 3, 2⟩]⟩) =
      some ⟨[⟨⟨2024, 5, 1⟩, 7⟩], [⟨⟨2023, 12, 31⟩, "ABC", 3, 2⟩]⟩ :=
  json_round_trip _ (by decide) (by decide)

/-- C10: if every trade entry dated at most `date` has nonzero quantity,
the `pop` in `titres` only fires on present keys and `titres` returns
without error; this precondition is violated from a reachable state:
`acheter` with quantity `0` succeeds whenever `solde(date) ≥ 0`,
appending a zero-quantity trade entry, after which `titres` aborts with
an unhandled `KeyError`. -/
theorem titres_keyerror_atteignable :
    (∀ (p : Portefeuille) (today date : Date), date.key ≤ today.key →
      (∀ e ∈ p.courtage, e.date.key ≤ date.key → e.quantite ≠ 0) →
      ∃ m, titres p today date = .ok m) ∧
    (∀ (p : Portefeuille) (prix : String → Date → ℚ) (symbole : String) (today date : Date),
      date.key ≤ today.key → 0 ≤ soldeVal p date →
      acheter p prix symbole 0 today date =
        (.ok (), ⟨p.courant ++ [⟨date, -(prix symbole date * ((0 : ℤ) : ℚ))⟩],
                  p.courtage ++ [⟨date, symbole, 0, prix symbole date⟩]⟩)) ∧
    (∃ s1 s2 : Portefeuille,
      deposer ⟨[], []⟩ 5 ⟨2024, 5, 1⟩ ⟨2024, 5, 1⟩ = (.ok (), s1) ∧
      acheter s1 (fun _ _ => 1) "ABC" 0 ⟨2024, 5, 1⟩ ⟨2024, 5, 1⟩ = (.ok (), s2) ∧
      titres s2 ⟨2024, 5, 1⟩ ⟨2024, 5, 1⟩ = .error .keyError) := by
  have hbuy : ∀ (p : Portefeuille) (prix : String → Date → ℚ) (symbole : String)
      (today date : Date), date.key ≤ today.key → 0 ≤ soldeVal p date →
      acheter p prix symbole 0 today date =
        (.ok (), ⟨p.courant ++ [⟨date, -(prix symbole date * ((0 : ℤ) : ℚ))⟩],
                  p.courtage ++ [⟨date, symbole, 0, prix symbole date⟩]⟩) := by
    intro p prix symbole today date hd h0
    have hz : prix symbole date * ((0 : ℤ) : ℚ) = 0 := by simp
    simp only [acheter]
    rw [if_neg (not_lt.mpr hd), hz]
    rw [if_neg (not_lt.mpr h0)]
  refine ⟨?_, hbuy, ?_⟩
  · intro p today date hd hnz
    obtain ⟨m, hok, -, -⟩ := titresLoop_spec date p.courtage [] (fun _ => 0) hnz
      (fun k => by simp [dfind]) (by simp)
    refine ⟨m, ?_⟩
    simp only [titres]
    rw [if_neg (not_lt.mpr hd), hok]
  · refine ⟨⟨[⟨⟨2024, 5, 1⟩, 5⟩], []⟩,
      ⟨[⟨⟨2024, 5, 1⟩, 5⟩, ⟨⟨2024, 5, 1⟩, -(1 * ((0 : ℤ) : ℚ))⟩],
        [⟨⟨2024, 5, 1⟩, "ABC", 0, 1⟩]⟩, rfl, ?_, rfl⟩
    exact hbuy ⟨[⟨⟨2024, 5, 1⟩, 5⟩], []⟩ (fun _ _ => 1) "ABC" ⟨2024, 5, 1⟩ ⟨2024, 5, 1⟩
      (le_refl _) (by norm_num [soldeVal])
